import Mathlib

/-!
Verification of the normandy signing-and-reconciliation engine against its
specification.  The engine's implementation (the `exports` module and the
management commands) is not part of the source snapshot; only its test suite
is (`src/normandy/recipes/tests/test_commands.py`).  The definitions below are
therefore modelled from the specification (`spec.md`), with behavior pinned by
the assertions of the test suite where the two speak to the same point.

Identifiers are natural numbers; canonical payloads and signature bytes are
strings (opaque byte sequences compared byte-for-byte); time is a natural
number of seconds.
-/

namespace Normandy

/-- Modelled from the spec: a `Signature` record `{bytes, timestamp,
public_key_ref}` attached to an entity (spec §3).  The timestamp is set
locally at request time (spec §3 allows this when the Signer does not echo
one). -/
structure Signature where
  bytes : String
  timestamp : Nat
  public_key_ref : String
deriving DecidableEq, Repr

/-- Modelled from the spec: an `Entity` (spec §3): stable `id`, canonical
`payload` (the deterministic serialization of its content), `enabled` flag
(Recipes only; an Action is modelled with `enabled := true` since it has no
enabled gate and is always eligible), and an optional `Signature`. -/
structure Entity where
  id : Nat
  payload : String
  enabled : Bool
  signature : Option Signature
deriving DecidableEq, Repr

/-- Modelled from the spec: the per-entity outcome of the Signing
Coordinator's decision table (spec §4.2). -/
inductive SigAction
  | sign
  | unsign
  | noop
deriving DecidableEq, Repr

/-- Modelled from the spec: the per-entity decision table of
`reconcile_signatures` (spec §4.2).  Age is `now - signature.timestamp`;
an eligible entity is signed when it has no signature, when forced, or when
the signature's age reaches `maxAge`; an ineligible (disabled) entity with a
signature is unsigned. -/
def decideSig (maxAge now : Nat) (force : Bool) (e : Entity) : SigAction :=
  if e.enabled then
    match e.signature with
    | none => SigAction.sign
    | some s =>
      if force then SigAction.sign
      else if maxAge ≤ now - s.timestamp then SigAction.sign
      else SigAction.noop
  else
    match e.signature with
    | some _ => SigAction.unsign
    | none => SigAction.noop

/-- Modelled from the spec: the fresh signature produced for an entity: the
external Signer (modelled as a function `f` from canonical payload to
signature bytes) signs the canonical payload; the timestamp is set locally at
request time (spec §3, §6). -/
def freshSignature (f : String → String) (now : Nat) (e : Entity) : Signature :=
  { bytes := f e.payload, timestamp := now, public_key_ref := "autograph" }

/-- Modelled from the spec: apply the decided action to one entity with a
reachable Signer `f` (spec §4.2). -/
def applySig (f : String → String) (maxAge now : Nat) (force : Bool) (e : Entity) : Entity :=
  match decideSig maxAge now force e with
  | SigAction.sign => { e with signature := some (freshSignature f now e) }
  | SigAction.unsign => { e with signature := none }
  | SigAction.noop => e

/-- Modelled from the spec: apply only the unsign transitions, leaving
sign-pending entities in their prior state; this is the post-state when the
Signer is unreachable, since unsigning is a pure local transition
(spec §4.2). -/
def clearOnly (maxAge now : Nat) (force : Bool) (e : Entity) : Entity :=
  match decideSig maxAge now force e with
  | SigAction.unsign => { e with signature := none }
  | _ => e

/-- Modelled from the spec: error taxonomy of the signing path (spec §7). -/
inductive SigningError
  | signingUnavailable
  | signerProtocolError
deriving DecidableEq, Repr

/-- Modelled from the spec: the `SigningReport` counts `{signed, unsigned}`
(spec §4.2). -/
structure SigningReport where
  signed : Nat
  unsigned : Nat
deriving DecidableEq, Repr

/-- Modelled from the spec: the observable outcome of one
`reconcile_signatures` run: the post-state entity list (positionally matching
the input), the list of canonical payloads submitted to the external Signer
(empty means the Signer was never called), and the report or error. -/
structure SigningOutcome where
  entities : List Entity
  signerPayloads : List String
  result : Except SigningError SigningReport
deriving Repr

/-- Modelled from the spec: `reconcile_signatures(entities, force)`
(spec §4.2).  The Signer is `some f` when reachable and `none` when
unreachable.  All entities needing a new signature are submitted in one
batch; when none needs signing the Signer is not called at all.  Unsigning is
applied locally in every case, even when the Signer is unreachable; when the
Signer is unreachable and at least one entity needs signing, the run reports
`signingUnavailable` and sign-pending entities keep their prior state. -/
def reconcile_signatures (signer : Option (String → String)) (maxAge now : Nat)
    (force : Bool) (entities : List Entity) : SigningOutcome :=
  let toSign := entities.filter (fun e => decideSig maxAge now force e == SigAction.sign)
  let nUnsign :=
    (entities.filter (fun e => decideSig maxAge now force e == SigAction.unsign)).length
  match signer with
  | some f =>
    { entities := entities.map (applySig f maxAge now force)
      signerPayloads := toSign.map (fun e => e.payload)
      result := Except.ok { signed := toSign.length, unsigned := nUnsign } }
  | none =>
    if toSign.isEmpty then
      { entities := entities.map (clearOnly maxAge now force)
        signerPayloads := []
        result := Except.ok { signed := 0, unsigned := nUnsign } }
    else
      { entities := entities.map (clearOnly maxAge now force)
        signerPayloads := []
        result := Except.error SigningError.signingUnavailable }

/-- Modelled from the spec: one wire request issued to the remote collection
store (spec §6): fetch the published records, upsert a record with its full
canonical payload, delete a record, or approve the pending changes. -/
inductive Request
  | listRecords
  | upsert (id : Nat) (payload : String)
  | delete (id : Nat)
  | approve
deriving DecidableEq, Repr

/-- Modelled from the spec: error taxonomy of the reconciliation path
(spec §7), plus the configuration error raised when the remote-settings
integration is not enabled (test `test_it_fails_if_not_enabled`). -/
inductive SyncError
  | improperlyConfigured
  | remoteUnavailable
deriving DecidableEq, Repr

/-- Modelled from the spec: the `SyncReport`
`{published: count(to_publish), unpublished: count(to_unpublish)}`
(spec §4.3). -/
structure SyncReport where
  published : Nat
  unpublished : Nat
deriving DecidableEq, Repr

/-- Modelled from the spec: `to_publish` — ids in `desired` not present
remotely, or present with a byte-different payload; both cases are handled
identically as an upsert (spec §4.3 step 2). -/
def toPublish (desired remote : List (Nat × String)) : List (Nat × String) :=
  desired.filter (fun p => !(remote.lookup p.1 == some p.2))

/-- Modelled from the spec: `to_unpublish` — ids present remotely but absent
from `desired` (spec §4.3 step 2). -/
def toUnpublish (desired remote : List (Nat × String)) : List Nat :=
  (remote.filter (fun p => (desired.lookup p.1).isNone)).map Prod.fst

/-- Modelled from the spec: `sync(desired, dry_run)` (spec §4.3).  `rsEnabled`
is the remote-settings configuration gate: when the integration is not
enabled the run fails with a configuration error before any remote request.
`fetch` is the result of the single initial fetch of the published record
set: `none` models fetch failure, which is fatal (`remoteUnavailable`) with
no mutation attempted.  On a dry run the computed report is returned without
any mutation request.  Otherwise one upsert per `to_publish` id (carrying the
full canonical payload) precedes one delete per `to_unpublish` id, followed
by exactly one approval request — skipped when zero mutations were issued. -/
def sync (rsEnabled : Bool) (desired : List (Nat × String))
    (fetch : Option (List (Nat × String))) (dryRun : Bool) :
    List Request × Except SyncError SyncReport :=
  if rsEnabled then
    match fetch with
    | none => ([Request.listRecords], Except.error SyncError.remoteUnavailable)
    | some remote =>
      let pub := toPublish desired remote
      let unpub := toUnpublish desired remote
      let report : SyncReport := { published := pub.length, unpublished := unpub.length }
      if dryRun then
        ([Request.listRecords], Except.ok report)
      else
        let muts := pub.map (fun p => Request.upsert p.1 p.2) ++ unpub.map Request.delete
        (Request.listRecords :: (muts ++ (if muts.isEmpty then [] else [Request.approve])),
          Except.ok report)
  else
    ([], Except.error SyncError.improperlyConfigured)

/-- Modelled from the spec: the `update_recipe_signatures` management command
(missing from the source snapshot).  It runs `reconcile_signatures` over the
recipes and, when the remote-settings integration is enabled, issues one
publish (upsert) request per recipe that was (re)signed followed by one
approval request; this behavior is pinned by the test
`TestUpdateRecipeSignatures.test_it_updates_remote_settings_if_enabled`,
which asserts three `publish` calls and one `approve_changes` call after
force-resigning three recipes. -/
def update_recipe_signatures_cmd (f : String → String) (maxAge now : Nat)
    (force : Bool) (rsEnabled : Bool) (recipes : List Entity) :
    SigningOutcome × List Request :=
  let outcome := reconcile_signatures (some f) maxAge now force recipes
  let resigned := recipes.filter (fun e => decideSig maxAge now force e == SigAction.sign)
  let reqs : List Request :=
    if rsEnabled then
      resigned.map (fun e => Request.upsert e.id e.payload)
        ++ (if resigned.isEmpty then [] else [Request.approve])
    else []
  (outcome, reqs)

/-- Whether a request mutates the published record set. -/
def Request.isMutation : Request → Bool
  | Request.upsert _ _ => true
  | Request.delete _ => true
  | _ => false

/-- The post-state entity list of a reconciliation run with a reachable
Signer: every decided action is applied. -/
lemma reconcile_entities_some (f : String → String) (maxAge now : Nat) (force : Bool)
    (entities : List Entity) :
    (reconcile_signatures (some f) maxAge now force entities).entities =
      entities.map (applySig f maxAge now force) := rfl

/-- The post-state entity list of a reconciliation run with an unreachable
Signer: only the unsign transitions are applied. -/
lemma reconcile_entities_none (maxAge now : Nat) (force : Bool) (entities : List Entity) :
    (reconcile_signatures none maxAge now force entities).entities =
      entities.map (clearOnly maxAge now force) := by
  by_cases h :
      (entities.filter (fun e => decideSig maxAge now force e == SigAction.sign)).isEmpty <;>
    simp [reconcile_signatures, h]

/-- With a reachable Signer, the payloads submitted to the Signer are exactly
those of the entities decided `sign`. -/
lemma reconcile_payloads_some (f : String → String) (maxAge now : Nat) (force : Bool)
    (entities : List Entity) :
    (reconcile_signatures (some f) maxAge now force entities).signerPayloads =
      (entities.filter (fun e => decideSig maxAge now force e == SigAction.sign)).map
        (fun e => e.payload) := rfl

/-- A disabled entity holding a signature is decided `unsign`. -/
lemma decideSig_disabled_signed (maxAge now : Nat) (force : Bool) (e : Entity) (s : Signature)
    (hdis : e.enabled = false) (hs : e.signature = some s) :
    decideSig maxAge now force e = SigAction.unsign := by
  simp [decideSig, hdis, hs]

/-- An eligible entity with no signature is decided `sign`, whatever the
force flag. -/
lemma decideSig_enabled_unsigned (maxAge now : Nat) (force : Bool) (e : Entity)
    (hen : e.enabled = true) (hs : e.signature = none) :
    decideSig maxAge now force e = SigAction.sign := by
  simp [decideSig, hen, hs]

/-- An eligible entity whose signature age reaches `maxAge` is decided
`sign`, whatever the force flag. -/
lemma decideSig_enabled_stale (maxAge now : Nat) (force : Bool) (e : Entity) (s : Signature)
    (hen : e.enabled = true) (hs : e.signature = some s)
    (hage : maxAge ≤ now - s.timestamp) :
    decideSig maxAge now force e = SigAction.sign := by
  simp [decideSig, hen, hs, hage]

/-- Without force, an eligible entity whose signature is still fresh is
decided `noop`. -/
lemma decideSig_enabled_fresh (maxAge now : Nat) (e : Entity) (s : Signature)
    (hen : e.enabled = true) (hs : e.signature = some s)
    (hage : now - s.timestamp < maxAge) :
    decideSig maxAge now false e = SigAction.noop := by
  simp [decideSig, hen, hs, Nat.not_le.mpr hage]

/-- Only a disabled entity can be decided `unsign` (without force). -/
lemma decideSig_false_unsign (maxAge now : Nat) (e : Entity)
    (h : decideSig maxAge now false e = SigAction.unsign) : e.enabled = false := by
  cases henb : e.enabled with
  | false => rfl
  | true =>
    exfalso
    cases hsg : e.signature with
    | none => simp [decideSig, henb, hsg] at h
    | some s =>
      by_cases hage : maxAge ≤ now - s.timestamp <;>
        simp [decideSig, henb, hsg, hage] at h

/-- After one forceless pass with a reachable Signer, no entity is decided
`sign` again: a just-signed entity carries a fresh timestamp, an unsigned one
is disabled, and a no-op one is unchanged and still fresh. -/
lemma decideSig_applySig_not_sign (f : String → String) (maxAge now : Nat)
    (hpos : 0 < maxAge) (e : Entity) :
    decideSig maxAge now false (applySig f maxAge now false e) ≠ SigAction.sign := by
  unfold applySig
  cases hd : decideSig maxAge now false e with
  | sign =>
    cases henb : e.enabled with
    | true => simp [decideSig, henb, freshSignature, Nat.sub_self, Nat.not_le.mpr hpos]
    | false => simp [decideSig, henb]
  | unsign =>
    have henb := decideSig_false_unsign maxAge now e hd
    simp [decideSig, henb]
  | noop => simp [hd]

/-- Claim C3: a disabled entity holding a signature (fresh or stale alike)
has its signature cleared by `reconcile_signatures`; its decision is
`unsign`, which never submits anything to the Signer, and the clearing
happens for every Signer state — `none`, the unreachable Signer,
included. -/
theorem reconcile_unsigns_disabled (signer : Option (String → String)) (maxAge now : Nat)
    (force : Bool) (entities : List Entity) (i : Nat) (e : Entity)
    (he : entities[i]? = some e) (hdis : e.enabled = false) (hsig : e.signature.isSome) :
    ((reconcile_signatures signer maxAge now force entities).entities)[i]? =
        some { e with signature := none } ∧
      decideSig maxAge now force e = SigAction.unsign := by
  obtain ⟨s, hs⟩ := Option.isSome_iff_exists.mp hsig
  have hdec := decideSig_disabled_signed maxAge now force e s hdis hs
  refine ⟨?_, hdec⟩
  cases signer with
  | some f =>
    rw [reconcile_entities_some, List.getElem?_map, he]
    simp [applySig, hdec]
  | none =>
    rw [reconcile_entities_none, List.getElem?_map, he]
    simp [clearOnly, hdec]

/-- Witness for C3 at a concrete disabled, signed entity and an unreachable
Signer. -/
theorem reconcile_unsigns_disabled_witness :
    (([⟨1, "p1", false, some ⟨"sig", 0, "k"⟩⟩] : List Entity)[0]? =
        some ⟨1, "p1", false, some ⟨"sig", 0, "k"⟩⟩) ∧
      (Entity.enabled ⟨1, "p1", false, some ⟨"sig", 0, "k"⟩⟩ = false) ∧
      (Option.isSome (Entity.signature ⟨1, "p1", false, some ⟨"sig", 0, "k"⟩⟩)) ∧
      (((reconcile_signatures none 100 50 false
            [⟨1, "p1", false, some ⟨"sig", 0, "k"⟩⟩]).entities)[0]? =
          some ⟨1, "p1", false, none⟩ ∧
        decideSig 100 50 false ⟨1, "p1", false, some ⟨"sig", 0, "k"⟩⟩ = SigAction.unsign) :=
  ⟨rfl, rfl, rfl,
    reconcile_unsigns_disabled none 100 50 false [⟨1, "p1", false, some ⟨"sig", 0, "k"⟩⟩] 0
      ⟨1, "p1", false, some ⟨"sig", 0, "k"⟩⟩ rfl rfl rfl⟩

/-- Claim C4: an eligible entity whose signature age has reached `maxAge` is
re-signed: the post-state holds a signature whose bytes are the Signer's
output on the entity's canonical payload, which differ from the stale bytes
whenever the external Signer does not reproduce them. -/
theorem reconcile_resigns_stale (f : String → String) (maxAge now : Nat) (force : Bool)
    (entities : List Entity) (i : Nat) (e : Entity) (s : Signature)
    (he : entities[i]? = some e) (hen : e.enabled = true) (hs : e.signature = some s)
    (hage : maxAge ≤ now - s.timestamp) (hdiff : f e.payload ≠ s.bytes) :
    ∃ t : Signature,
      ((reconcile_signatures (some f) maxAge now force entities).entities)[i]? =
          some { e with signature := some t } ∧ t.bytes ≠ s.bytes := by
  have hdec := decideSig_enabled_stale maxAge now force e s hen hs hage
  refine ⟨freshSignature f now e, ?_, hdiff⟩
  rw [reconcile_entities_some, List.getElem?_map, he]
  simp [applySig, hdec]

/-- Witness for C4 at a concrete enabled entity with a stale signature. -/
theorem reconcile_resigns_stale_witness :
    (([⟨1, "p", true, some ⟨"old", 0, "k"⟩⟩] : List Entity)[0]? =
        some ⟨1, "p", true, some ⟨"old", 0, "k"⟩⟩) ∧
      (10 ≤ 30 - 0) ∧ ((fun q => "sig:" ++ q) "p" ≠ "old") ∧
      (∃ t : Signature,
        ((reconcile_signatures (some (fun q => "sig:" ++ q)) 10 30 false
              [⟨1, "p", true, some ⟨"old", 0, "k"⟩⟩]).entities)[0]? =
            some { Entity.mk 1 "p" true (some ⟨"old", 0, "k"⟩) with signature := some t } ∧
          t.bytes ≠ "old") :=
  ⟨rfl, by decide, by decide,
    reconcile_resigns_stale (fun q => "sig:" ++ q) 10 30 false _ 0 _ ⟨"old", 0, "k"⟩
      rfl rfl rfl (by decide) (by decide)⟩

/-- Claim C6: an eligible entity with no signature gets one attached,
whatever the force flag: the post-state carries the fresh signature over its
canonical payload, and that payload is among those submitted to the
Signer. -/
theorem reconcile_signs_unsigned (f : String → String) (maxAge now : Nat) (force : Bool)
    (entities : List Entity) (i : Nat) (e : Entity)
    (he : entities[i]? = some e) (hen : e.enabled = true) (hs : e.signature = none) :
    ((reconcile_signatures (some f) maxAge now force entities).entities)[i]? =
        some { e with signature := some (freshSignature f now e) } ∧
      e.payload ∈ (reconcile_signatures (some f) maxAge now force entities).signerPayloads := by
  have hdec := decideSig_enabled_unsigned maxAge now force e hen hs
  constructor
  · rw [reconcile_entities_some, List.getElem?_map, he]
    simp [applySig, hdec]
  · rw [reconcile_payloads_some]
    have hmem : e ∈ entities := List.getElem?_mem he
    have hef : e ∈ entities.filter (fun x => decideSig maxAge now force x == SigAction.sign) :=
      List.mem_filter.mpr ⟨hmem, by simp [hdec]⟩
    exact List.mem_map.mpr ⟨e, hef, rfl⟩

/-- Witness for C6 at a concrete enabled, unsigned entity. -/
theorem reconcile_signs_unsigned_witness :
    (([⟨2, "q", true, none⟩] : List Entity)[0]? = some ⟨2, "q", true, none⟩) ∧
      (((reconcile_signatures (some (fun p => "s:" ++ p)) 5 7 true
            [⟨2, "q", true, none⟩]).entities)[0]? =
          some { Entity.mk 2 "q" true none with
                  signature := some (freshSignature (fun p => "s:" ++ p) 7 ⟨2, "q", true, none⟩) } ∧
        "q" ∈ (reconcile_signatures (some (fun p => "s:" ++ p)) 5 7 true
            [⟨2, "q", true, none⟩]).signerPayloads) :=
  ⟨rfl, reconcile_signs_unsigned (fun p => "s:" ++ p) 5 7 true _ 0 _ rfl rfl rfl⟩

/-- Claim C5: forceless reconciliation is idempotent: an eligible entity
whose signature is younger than `maxAge` is left entirely unchanged (bytes
included), and a second forceless run over the first run's output submits
nothing to the Signer. -/
theorem reconcile_idempotent (f : String → String) (maxAge now : Nat)
    (entities : List Entity) (hpos : 0 < maxAge) :
    (∀ (i : Nat) (e : Entity) (s : Signature), entities[i]? = some e → e.enabled = true →
        e.signature = some s → now - s.timestamp < maxAge →
        ((reconcile_signatures (some f) maxAge now false entities).entities)[i]? = some e) ∧
      (reconcile_signatures (some f) maxAge now false
          ((reconcile_signatures (some f) maxAge now false entities).entities)).signerPayloads =
        [] := by
  constructor
  · intro i e s he hen hs hfresh
    have hdec := decideSig_enabled_fresh maxAge now e s hen hs hfresh
    rw [reconcile_entities_some, List.getElem?_map, he]
    simp [applySig, hdec]
  · have hfil : ((entities.map (applySig f maxAge now false)).filter
        (fun x => decideSig maxAge now false x == SigAction.sign)) = [] := by
      rw [List.filter_eq_nil_iff]
      intro e' hmem
      obtain ⟨e, hme, rfl⟩ := List.mem_map.mp hmem
      simp only [beq_iff_eq]
      exact decideSig_applySig_not_sign f maxAge now hpos e
    rw [reconcile_payloads_some, reconcile_entities_some, hfil]
    rfl

/-- Witness for C5 at a concrete singleton entity set. -/
theorem reconcile_idempotent_witness :
    0 < 1 ∧
      ((∀ (i : Nat) (e : Entity) (s : Signature),
            ([⟨1, "p", true, none⟩] : List Entity)[i]? = some e → e.enabled = true →
            e.signature = some s → 0 - s.timestamp < 1 →
          ((reconcile_signatures (some (fun p => p)) 1 0 false
              [⟨1, "p", true, none⟩]).entities)[i]? = some e) ∧
        (reconcile_signatures (some (fun p => p)) 1 0 false
            ((reconcile_signatures (some (fun p => p)) 1 0 false
                [⟨1, "p", true, none⟩]).entities)).signerPayloads = []) :=
  ⟨by decide, reconcile_idempotent (fun p => p) 1 0 [⟨1, "p", true, none⟩] (by decide)⟩

/-- Claim C7: on a dry run the only remote request is the initial fetch of
published records — no upsert, delete, or approval — and the returned report
still reflects the computed diff (the same report a mutating run would
return). -/
theorem sync_dry_run_no_mutation (desired remote : List (Nat × String)) :
    (sync true desired (some remote) true).1 = [Request.listRecords] ∧
      (sync true desired (some remote) true).2 =
        Except.ok { published := (toPublish desired remote).length,
                    unpublished := (toUnpublish desired remote).length } ∧
      (sync true desired (some remote) true).2 = (sync true desired (some remote) false).2 := by
  refine ⟨rfl, rfl, ?_⟩
  simp only [sync]
  by_cases h : (toPublish desired remote).map (fun p => Request.upsert p.1 p.2) ++
      (toUnpublish desired remote).map Request.delete = []
  · simp [h]
  · simp [h]

/-- Claim C8: when the initial fetch of the published record set fails, the
run fails as a whole with `remoteUnavailable`, and the only request made was
that fetch — no upsert, delete, or approval is attempted. -/
theorem sync_fetch_failure_fatal (desired : List (Nat × String)) (dryRun : Bool) :
    sync true desired none dryRun =
      ([Request.listRecords], Except.error SyncError.remoteUnavailable) := rfl

/-- Claim C10: when the remote-settings integration is not enabled, `sync`
fails with a configuration error before contacting the remote store: no
request at all is issued, not even the initial fetch. -/
theorem sync_not_enabled_fails (desired : List (Nat × String))
    (fetch : Option (List (Nat × String))) (dryRun : Bool) :
    sync false desired fetch dryRun = ([], Except.error SyncError.improperlyConfigured) := rfl

/-- The request trace of an enabled, non-dry-run sync with a successful
fetch: the fetch, then the upserts, then the deletes, then one approval when
at least one mutation was issued. -/
lemma sync_requests_eq (desired remote : List (Nat × String)) :
    (sync true desired (some remote) false).1 =
      Request.listRecords ::
        ((toPublish desired remote).map (fun p => Request.upsert p.1 p.2) ++
          (toUnpublish desired remote).map Request.delete ++
          (if ((toPublish desired remote).map (fun p => Request.upsert p.1 p.2) ++
                (toUnpublish desired remote).map Request.delete).isEmpty then []
            else [Request.approve])) := rfl

/-- With nodup keys, a pair of the association list is found by `lookup`. -/
lemma lookup_eq_some_of_mem {l : List (Nat × String)} (hnd : (l.map Prod.fst).Nodup)
    {i : Nat} {pl : String} (hm : (i, pl) ∈ l) : l.lookup i = some pl := by
  induction l with
  | nil => cases hm
  | cons a t ih =>
    obtain ⟨x, y⟩ := a
    rw [List.map_cons, List.nodup_cons] at hnd
    rcases List.mem_cons.mp hm with h | h
    · injection h with h1 h2
      subst h1; subst h2
      simp [List.lookup]
    · have hne : i ≠ x := by
        rintro rfl
        exact hnd.1 (List.mem_map.mpr ⟨(i, pl), h, rfl⟩)
      have hbeq : (i == x) = false := beq_eq_false_iff_ne.mpr hne
      simpa [List.lookup, hbeq] using ih hnd.2 h

/-- In a duplicate-free list, a member is counted exactly once. -/
lemma count_eq_one_of_mem_nodup {α : Type} [BEq α] [LawfulBEq α] {l : List α} {a : α}
    (hn : l.Nodup) (hm : a ∈ l) : l.count a = 1 := by
  induction l with
  | nil => cases hm
  | cons b t ih =>
    rw [List.nodup_cons] at hn
    rcases List.mem_cons.mp hm with h | h
    · subst h
      rw [List.count_cons_self, List.count_eq_zero.mpr hn.1]
    · have hba : b ≠ a := by
        rintro rfl
        exact hn.1 h
      rw [List.count_cons_of_ne (Ne.symm hba)]
      exact ih hn.2 h

/-- Counting through an injective map. -/
lemma count_map_injective {α β : Type} [BEq α] [LawfulBEq α] [BEq β] [LawfulBEq β]
    (l : List α) (f : α → β) (hf : Function.Injective f) (a : α) :
    (l.map f).count (f a) = l.count a := by
  induction l with
  | nil => rfl
  | cons b t ih =>
    by_cases hba : b = a
    · subst hba
      rw [List.map_cons, List.count_cons_self, List.count_cons_self, ih]
    · rw [List.map_cons, List.count_cons_of_ne (fun h => hba (hf h).symm), ih,
        List.count_cons_of_ne (fun h => hba h.symm)]

/-- With nodup keys, an id determines its payload in the association list. -/
lemma keys_nodup_unique {l : List (Nat × String)} (hnd : (l.map Prod.fst).Nodup)
    {i : Nat} {pl pl2 : String} (h1 : (i, pl) ∈ l) (h2 : (i, pl2) ∈ l) : pl2 = pl := by
  have e1 := lookup_eq_some_of_mem hnd h1
  have e2 := lookup_eq_some_of_mem hnd h2
  rw [e1] at e2
  injection e2 with e
  exact e.symm

/-- Upsert requests are injective in the (id, payload) pair. -/
lemma upsert_injective : Function.Injective (fun p : Nat × String => Request.upsert p.1 p.2) := by
  rintro ⟨a, b⟩ ⟨c, d⟩ h
  simpa using h

/-- Delete requests are injective in the id. -/
lemma delete_injective : Function.Injective Request.delete := by
  intro a b h
  simpa using h

/-- No upsert request occurs among the delete requests. -/
lemma count_upsert_in_deletes (unpub : List Nat) (i : Nat) (pl : String) :
    (unpub.map Request.delete).count (Request.upsert i pl) = 0 :=
  List.count_eq_zero.mpr (by
    intro hmem
    obtain ⟨a, _, ha⟩ := List.mem_map.mp hmem
    exact Request.noConfusion ha)

/-- No delete request occurs among the upsert requests. -/
lemma count_delete_in_upserts (pub : List (Nat × String)) (i : Nat) :
    (pub.map (fun p => Request.upsert p.1 p.2)).count (Request.delete i) = 0 :=
  List.count_eq_zero.mpr (by
    intro hmem
    obtain ⟨a, _, ha⟩ := List.mem_map.mp hmem
    exact Request.noConfusion ha)

/-- Every request of an enabled, non-dry-run sync is the fetch, an upsert of
a `to_publish` pair, a delete of a `to_unpublish` id, or the approval. -/
lemma mem_sync_requests {desired remote : List (Nat × String)} {x : Request}
    (hx : x ∈ (sync true desired (some remote) false).1) :
    x = Request.listRecords ∨
      x ∈ (toPublish desired remote).map (fun p => Request.upsert p.1 p.2) ∨
      x ∈ (toUnpublish desired remote).map Request.delete ∨ x = Request.approve := by
  rw [sync_requests_eq] at hx
  rcases List.mem_cons.mp hx with h | h
  · exact Or.inl h
  · rcases List.mem_append.mp h with h | h
    · rcases List.mem_append.mp h with h | h
      · exact Or.inr (Or.inl h)
      · exact Or.inr (Or.inr (Or.inl h))
    · by_cases hc : (((toPublish desired remote).map (fun p => Request.upsert p.1 p.2) ++
          (toUnpublish desired remote).map Request.delete).isEmpty = true)
      · rw [if_pos hc] at h
        cases h
      · rw [if_neg hc] at h
        rcases List.mem_cons.mp h with h | h
        · exact Or.inr (Or.inr (Or.inr h))
        · cases h

/-- Claim C2: a non-dry-run sync that issues at least one upsert or delete
issues exactly one approval request, as the last request of the run — after
every upsert and delete; a sync that issues zero mutations issues no
approval at all. -/
theorem sync_single_approval (desired remote : List (Nat × String)) :
    ((toPublish desired remote ≠ [] ∨ toUnpublish desired remote ≠ []) →
        (sync true desired (some remote) false).1.count Request.approve = 1 ∧
          (sync true desired (some remote) false).1.getLast? = some Request.approve) ∧
      (toPublish desired remote = [] → toUnpublish desired remote = [] →
        Request.approve ∉ (sync true desired (some remote) false).1) := by
  constructor
  · intro hne
    have hc : ¬(((toPublish desired remote).map (fun p => Request.upsert p.1 p.2) ++
        (toUnpublish desired remote).map Request.delete).isEmpty = true) := by
      rw [List.isEmpty_iff, List.append_eq_nil, List.map_eq_nil_iff, List.map_eq_nil_iff]
      rintro ⟨h1, h2⟩
      rcases hne with h | h
      · exact h h1
      · exact h h2
    have hA : ((toPublish desired remote).map
        (fun p => Request.upsert p.1 p.2)).count Request.approve = 0 :=
      List.count_eq_zero.mpr (by
        intro hmem
        obtain ⟨a, _, ha⟩ := List.mem_map.mp hmem
        exact Request.noConfusion ha)
    have hB : ((toUnpublish desired remote).map Request.delete).count Request.approve = 0 :=
      List.count_eq_zero.mpr (by
        intro hmem
        obtain ⟨a, _, ha⟩ := List.mem_map.mp hmem
        exact Request.noConfusion ha)
    constructor
    · rw [sync_requests_eq, if_neg hc, List.count_cons, List.count_append, List.count_append,
        hA, hB]
      simp
    · rw [sync_requests_eq, if_neg hc, ← List.cons_append]
      exact List.getLast?_concat _
  · intro h1 h2
    rw [sync_requests_eq, h1, h2]
    simp [toUnpublish]

/-- Witness for C2 at a one-record desired set against an empty remote. -/
theorem sync_single_approval_witness :
    (toPublish [(1, "a")] [] ≠ [] ∨ toUnpublish [(1, "a")] [] ≠ []) ∧
      ((sync true [(1, "a")] (some []) false).1.count Request.approve = 1 ∧
        (sync true [(1, "a")] (some []) false).1.getLast? = some Request.approve) :=
  ⟨Or.inl (by decide), (sync_single_approval [(1, "a")] []).1 (Or.inl (by decide))⟩

/-- Claim C1: in an enabled, non-dry-run sync over keyed record sets, an id
present in `desired` but absent remotely or remotely carrying different
bytes receives exactly one upsert, and that upsert carries the id's full
canonical payload; an id present remotely but absent from `desired` receives
exactly one delete; an id present in both with byte-identical payload
receives no upsert and no delete at all. -/
theorem sync_minimal_diff (desired remote : List (Nat × String))
    (hd : (desired.map Prod.fst).Nodup) (hr : (remote.map Prod.fst).Nodup) :
    (∀ (i : Nat) (pl : String), (i, pl) ∈ desired → remote.lookup i ≠ some pl →
        (sync true desired (some remote) false).1.count (Request.upsert i pl) = 1 ∧
          ∀ pl2, Request.upsert i pl2 ∈ (sync true desired (some remote) false).1 →
            pl2 = pl) ∧
      (∀ (i : Nat) (pl : String), (i, pl) ∈ remote → desired.lookup i = none →
        (sync true desired (some remote) false).1.count (Request.delete i) = 1) ∧
      (∀ (i : Nat) (pl : String), (i, pl) ∈ desired → remote.lookup i = some pl →
        (∀ pl2, Request.upsert i pl2 ∉ (sync true desired (some remote) false).1) ∧
          Request.delete i ∉ (sync true desired (some remote) false).1) := by
  refine ⟨?_, ?_, ?_⟩
  · intro i pl hmem hlook
    have hpub : (i, pl) ∈ toPublish desired remote := by
      simp only [toPublish]
      exact List.mem_filter.mpr ⟨hmem, by simp [hlook]⟩
    have hpubnd : (toPublish desired remote).Nodup := by
      simp only [toPublish]
      exact (List.Nodup.of_map Prod.fst hd).filter _
    have hcnt : (toPublish desired remote).count (i, pl) = 1 :=
      count_eq_one_of_mem_nodup hpubnd hpub
    have hcntmap : ((toPublish desired remote).map
        (fun p => Request.upsert p.1 p.2)).count (Request.upsert i pl) = 1 := by
      have h := count_map_injective (toPublish desired remote)
        (fun p : Nat × String => Request.upsert p.1 p.2) upsert_injective (i, pl)
      simpa [hcnt] using h
    have hc : ¬(((toPublish desired remote).map (fun p => Request.upsert p.1 p.2) ++
        (toUnpublish desired remote).map Request.delete).isEmpty = true) := by
      rw [List.isEmpty_iff, List.append_eq_nil, List.map_eq_nil_iff, List.map_eq_nil_iff]
      rintro ⟨h1, _⟩
      rw [h1] at hpub
      cases hpub
    constructor
    · rw [sync_requests_eq, if_neg hc, List.count_cons, List.count_append, List.count_append,
        hcntmap, count_upsert_in_deletes]
      simp
    · intro pl2 hin
      rcases mem_sync_requests hin with h | h | h | h
      · exact Request.noConfusion h
      · obtain ⟨⟨a, b⟩, hab, hEq⟩ := List.mem_map.mp h
        obtain ⟨rfl, rfl⟩ := Request.upsert.inj hEq
        simp only [toPublish] at hab
        have hd2 := List.mem_filter.mp hab
        exact keys_nodup_unique hd hmem hd2.1
      · obtain ⟨a, _, hEq⟩ := List.mem_map.mp h
        exact Request.noConfusion hEq
      · exact Request.noConfusion h
  · intro i pl hmem hlook
    have hfil : (i, pl) ∈ remote.filter (fun p => (desired.lookup p.1).isNone) :=
      List.mem_filter.mpr ⟨hmem, by simp [hlook]⟩
    have hiu : i ∈ toUnpublish desired remote := by
      simp only [toUnpublish]
      exact List.mem_map.mpr ⟨(i, pl), hfil, rfl⟩
    have hund : (toUnpublish desired remote).Nodup := by
      simp only [toUnpublish]
      exact hr.sublist ((List.filter_sublist remote).map Prod.fst)
    have hcnt : (toUnpublish desired remote).count i = 1 :=
      count_eq_one_of_mem_nodup hund hiu
    have hcntmap : ((toUnpublish desired remote).map Request.delete).count
        (Request.delete i) = 1 := by
      have h := count_map_injective (toUnpublish desired remote)
        Request.delete delete_injective i
      simpa [hcnt] using h
    have hc : ¬(((toPublish desired remote).map (fun p => Request.upsert p.1 p.2) ++
        (toUnpublish desired remote).map Request.delete).isEmpty = true) := by
      rw [List.isEmpty_iff, List.append_eq_nil, List.map_eq_nil_iff, List.map_eq_nil_iff]
      rintro ⟨_, h2⟩
      rw [h2] at hiu
      cases hiu
    rw [sync_requests_eq, if_neg hc, List.count_cons, List.count_append, List.count_append,
      hcntmap, count_delete_in_upserts]
    simp
  · intro i pl hmem hlook
    constructor
    · intro pl2 hin
      rcases mem_sync_requests hin with h | h | h | h
      · exact Request.noConfusion h
      · obtain ⟨⟨a, b⟩, hab, hEq⟩ := List.mem_map.mp h
        obtain ⟨rfl, rfl⟩ := Request.upsert.inj hEq
        simp only [toPublish] at hab
        have hd2 := List.mem_filter.mp hab
        have heq2 : b = pl := keys_nodup_unique hd hmem hd2.1
        subst heq2
        simp [hlook] at hd2
      · obtain ⟨a, _, hEq⟩ := List.mem_map.mp h
        exact Request.noConfusion hEq
      · exact Request.noConfusion h
    · intro hin
      rcases mem_sync_requests hin with h | h | h | h
      · exact Request.noConfusion h
      · obtain ⟨⟨a, b⟩, _, hEq⟩ := List.mem_map.mp h
        exact Request.noConfusion hEq
      · simp only [toUnpublish] at h
        obtain ⟨a, haun, hEq⟩ := List.mem_map.mp h
        obtain rfl := Request.delete.inj hEq
        obtain ⟨⟨x, y⟩, hxy, hfst⟩ := List.mem_map.mp haun
        cases hfst
        have h2 := List.mem_filter.mp hxy
        have hlk : desired.lookup x = some pl := lookup_eq_some_of_mem hd hmem
        simp [hlk] at h2
      · exact Request.noConfusion h

/-- Witness for C1 at a concrete diff: one record to create, one to update,
one to delete. -/
theorem sync_minimal_diff_witness :
    (([(1, "a"), (2, "b")] : List (Nat × String)).map Prod.fst).Nodup ∧
      (([(2, "old"), (3, "c")] : List (Nat × String)).map Prod.fst).Nodup ∧
      ((∀ (i : Nat) (pl : String), (i, pl) ∈ ([(1, "a"), (2, "b")] : List (Nat × String)) →
          ([(2, "old"), (3, "c")] : List (Nat × String)).lookup i ≠ some pl →
          (sync true [(1, "a"), (2, "b")] (some [(2, "old"), (3, "c")]) false).1.count
              (Request.upsert i pl) = 1 ∧
            ∀ pl2, Request.upsert i pl2 ∈
                (sync true [(1, "a"), (2, "b")] (some [(2, "old"), (3, "c")]) false).1 →
              pl2 = pl) ∧
        (∀ (i : Nat) (pl : String), (i, pl) ∈ ([(2, "old"), (3, "c")] : List (Nat × String)) →
          ([(1, "a"), (2, "b")] : List (Nat × String)).lookup i = none →
          (sync true [(1, "a"), (2, "b")] (some [(2, "old"), (3, "c")]) false).1.count
            (Request.delete i) = 1) ∧
        (∀ (i : Nat) (pl : String), (i, pl) ∈ ([(1, "a"), (2, "b")] : List (Nat × String)) →
          ([(2, "old"), (3, "c")] : List (Nat × String)).lookup i = some pl →
          (∀ pl2, Request.upsert i pl2 ∉
              (sync true [(1, "a"), (2, "b")] (some [(2, "old"), (3, "c")]) false).1) ∧
            Request.delete i ∉
              (sync true [(1, "a"), (2, "b")] (some [(2, "old"), (3, "c")]) false).1)) :=
  ⟨by decide, by decide,
    sync_minimal_diff [(1, "a"), (2, "b")] [(2, "old"), (3, "c")] (by decide) (by decide)⟩

/-- Claim C9 counterexample: force-resigning three enabled, signed recipes
with the remote-settings integration enabled makes the signature-update
command itself issue three publish (upsert) requests and one approval
request to the remote store — so `sync` is not the only operation mutating
Published Records, contrary to the claim.  This mirrors the test
`test_it_updates_remote_settings_if_enabled`, which asserts exactly three
`publish` calls and one `approve_changes` call. -/
theorem update_signatures_publishes_counterexample :
    ((update_recipe_signatures_cmd (fun _ => "s") 100 50 true true
        [⟨1, "a", true, some ⟨"old", 50, "k"⟩⟩,
          ⟨2, "b", true, some ⟨"old", 50, "k"⟩⟩,
          ⟨3, "c", true, some ⟨"old", 50, "k"⟩⟩]).2.countP Request.isMutation = 3) ∧
      ((update_recipe_signatures_cmd (fun _ => "s") 100 50 true true
          [⟨1, "a", true, some ⟨"old", 50, "k"⟩⟩,
            ⟨2, "b", true, some ⟨"old", 50, "k"⟩⟩,
            ⟨3, "c", true, some ⟨"old", 50, "k"⟩⟩]).2.count Request.approve = 1) := by
  constructor <;> rfl

/-- Claim C9 (amended): `sync` is not the sole writer of Published Records —
the `update_recipe_signatures` command also publishes: with the
remote-settings integration enabled it issues exactly one publish (upsert)
request per recipe decided to be (re)signed, followed by exactly one
approval request when at least one was published and none otherwise; with
the integration disabled it issues no remote request at all. -/
theorem update_signatures_publish_contract (f : String → String) (maxAge now : Nat)
    (force : Bool) (recipes : List Entity) :
    (update_recipe_signatures_cmd f maxAge now force false recipes).2 = [] ∧
      (update_recipe_signatures_cmd f maxAge now force true recipes).2.countP
          Request.isMutation =
        (recipes.filter (fun e => decideSig maxAge now force e == SigAction.sign)).length ∧
      (update_recipe_signatures_cmd f maxAge now force true recipes).2.count Request.approve =
        (if (recipes.filter
            (fun e => decideSig maxAge now force e == SigAction.sign)).isEmpty then 0 else 1) ∧
      (update_recipe_signatures_cmd f maxAge now force true recipes).2.getLast? =
        (if (recipes.filter
            (fun e => decideSig maxAge now force e == SigAction.sign)).isEmpty
          then none else some Request.approve) := by
  refine ⟨rfl, ?_, ?_, ?_⟩
  · show ((recipes.filter (fun e => decideSig maxAge now force e == SigAction.sign)).map
        (fun e => Request.upsert e.id e.payload) ++
        (if (recipes.filter
            (fun e => decideSig maxAge now force e == SigAction.sign)).isEmpty then []
          else [Request.approve])).countP Request.isMutation = _
    rw [List.countP_append]
    have hA : ((recipes.filter (fun e => decideSig maxAge now force e == SigAction.sign)).map
        (fun e => Request.upsert e.id e.payload)).countP Request.isMutation =
        (recipes.filter (fun e => decideSig maxAge now force e == SigAction.sign)).length := by
      rw [List.countP_eq_length.mpr, List.length_map]
      intro a ha
      obtain ⟨e, _, rfl⟩ := List.mem_map.mp ha
      rfl
    rw [hA]
    cases hE : (recipes.filter (fun e => decideSig maxAge now force e == SigAction.sign)).isEmpty
    · simp [Request.isMutation]
    · simp
  · show ((recipes.filter (fun e => decideSig maxAge now force e == SigAction.sign)).map
        (fun e => Request.upsert e.id e.payload) ++
        (if (recipes.filter
            (fun e => decideSig maxAge now force e == SigAction.sign)).isEmpty then []
          else [Request.approve])).count Request.approve = _
    rw [List.count_append]
    have hA : ((recipes.filter (fun e => decideSig maxAge now force e == SigAction.sign)).map
        (fun e => Request.upsert e.id e.payload)).count Request.approve = 0 :=
      List.count_eq_zero.mpr (by
        intro hmem
        obtain ⟨e, _, hEq⟩ := List.mem_map.mp hmem
        exact Request.noConfusion hEq)
    rw [hA]
    cases hE : (recipes.filter (fun e => decideSig maxAge now force e == SigAction.sign)).isEmpty
    · simp
    · simp
  · show ((recipes.filter (fun e => decideSig maxAge now force e == SigAction.sign)).map
        (fun e => Request.upsert e.id e.payload) ++
        (if (recipes.filter
            (fun e => decideSig maxAge now force e == SigAction.sign)).isEmpty then []
          else [Request.approve])).getLast? = _
    cases hE : (recipes.filter (fun e => decideSig maxAge now force e == SigAction.sign)).isEmpty
    · simp only [Bool.false_eq_true, if_false]
      exact List.getLast?_concat _
    · rw [List.isEmpty_iff] at hE
      simp [hE]

end Normandy
